import Mathlib

/-!
Shallow embedding of `src/rust_connection/fd_read_write.rs` (x11rb's buffered
FD-passing I/O layer) and proofs about it.

Modelling decisions:
* Bytes and file descriptors are `Nat`s; `std::io::Error` becomes `IOErr`
  (a kind plus its message string); fallible calls return `Except IOErr _`.
* A wrapped transport (an implementor of the `WriteFD`/`ReadFD` traits) is a
  deterministic state machine over an abstract state type `σ`: each call
  returns the new transport state, the residual fd list (the `&mut Vec`
  argument after the call) and the `Result`.
* `VecDeque<u8>` becomes a `List Byte` plus a constant `capacity` field
  (`VecDeque::with_capacity` fixes the capacity and the code never exceeds
  it, so `data_buf.capacity()` is modelled as that constant).
  `VecDeque::as_slices` is modelled as the pair `(contents, [])`.
* Rust `assert!` failures and out-of-range `drain` are modelled by an
  explicit `panicked` outcome carrying the state at the panic point; the
  `while` loop of `flush_buffer` and the loop of `read_exact` take fuel and
  return `noFuel` when it runs out.
-/

abbrev Byte := Nat
abbrev Fd := Nat

/-- The `std::io::ErrorKind`s that appear in the source. -/
inductive ErrKind where
  | wouldBlock
  | interrupted
  | writeZero
  | unexpectedEof
  | otherKind
  deriving DecidableEq

/-- A `std::io::Error`: a kind together with its message. -/
structure IOErr where
  kind : ErrKind
  msg : String
  deriving DecidableEq

/-- A `WriteFD + Poll` transport as a deterministic state machine over states
`σ`. Each operation returns the new state, the residual fd list (what is left
in the `&mut Vec<RawFdContainer>` argument) and the `Result`. -/
structure WriteFDImpl (σ : Type) where
  write : σ → List Byte → List Fd → σ × List Fd × Except IOErr Nat
  writeVectored : σ → List (List Byte) → List Fd → σ × List Fd × Except IOErr Nat
  flush : σ → σ × Except IOErr Unit

/-- The default (trait-provided) body of `WriteFD::write_vectored`: loop over
the buffers and call `write` on the first non-empty one; return `Ok(0)` if
there is none. -/
def defaultWriteVectored (w : σ → List Byte → List Fd → σ × List Fd × Except IOErr Nat)
    (s : σ) : List (List Byte) → List Fd → σ × List Fd × Except IOErr Nat
  | [], fds => (s, fds, .ok 0)
  | b :: rest, fds =>
    if b.isEmpty then defaultWriteVectored w s rest fds else w s b fds

/-- The state of a `BufWriteFD<W>`: the wrapped transport state, the byte
buffer with its fixed capacity, and the fd queue. -/
structure BufWriteFD (σ : Type) where
  inner : σ
  capacity : Nat
  dataBuf : List Byte
  fdBuf : List Fd
  deriving DecidableEq

/-- `BufWriteFD::with_capacity`. -/
def BufWriteFD.withCapacity (capacity : Nat) (inner : σ) : BufWriteFD σ :=
  { inner := inner, capacity := capacity, dataBuf := [], fdBuf := [] }

/-- `BufWriteFD::new`; the default capacity is 16384 bytes. -/
def BufWriteFD.new (inner : σ) : BufWriteFD σ :=
  BufWriteFD.withCapacity 16384 inner

/-- The result of running a `BufWriteFD` operation: normal return value or
error (each with the post-call state), a Rust panic (assertion failure or
out-of-range `drain`, with the state at the panic point), or loop fuel
exhaustion (a model artifact: the corresponding Rust loop is still running). -/
inductive Outcome (σ α : Type) where
  | ok (st : BufWriteFD σ) (val : α)
  | err (st : BufWriteFD σ) (e : IOErr)
  | panicked (st : BufWriteFD σ) (msg : String)
  | noFuel
  deriving DecidableEq

/-- Message of the `assert!(!self.fd_buf.is_empty())` in `flush_buffer`. -/
def fdAssertMsg : String := "assertion failed: !self.fd_buf.is_empty()"

/-- Message of the `assert!(self.data_buf.is_empty())` in `write_helper`. -/
def dataAssertMsg : String := "assertion failed: self.data_buf.is_empty()"

/-- Message for `self.data_buf.drain(..n)` with `n` out of range. -/
def drainMsg : String := "drain range out of bounds"

/-- `BufWriteFD::flush_buffer`: loop while the byte buffer or the fd queue is
non-empty; offer the buffer's two slices and the whole fd queue to the
transport's vectored write; on `Ok(0)` fail with a `WriteZero` error (after
the assertion); on `Ok(n)` drain `n` bytes from the buffer front; retry on
`Interrupted`; propagate other errors. -/
def flushBuffer (T : WriteFDImpl σ) : Nat → BufWriteFD σ → Outcome σ Unit
  | 0, _ => .noFuel
  | fuel + 1, st =>
    if st.dataBuf.isEmpty && st.fdBuf.isEmpty then
      .ok st ()
    else
      let res := T.writeVectored st.inner [st.dataBuf, []] st.fdBuf
      let st' : BufWriteFD σ := { st with inner := res.1, fdBuf := res.2.1 }
      match res.2.2 with
      | .ok 0 =>
        if st'.dataBuf.isEmpty then
          if st'.fdBuf.isEmpty then
            .panicked st' fdAssertMsg
          else
            .err st' ⟨.writeZero, "failed to write the buffered FDs"⟩
        else
          .err st' ⟨.writeZero, "failed to write the buffered data"⟩
      | .ok (n + 1) =>
        if n + 1 ≤ st'.dataBuf.length then
          flushBuffer T fuel { st' with dataBuf := st'.dataBuf.drop (n + 1) }
        else
          .panicked st' drainMsg
      | .error e =>
        if e.kind = .interrupted then
          flushBuffer T fuel st'
        else
          .err st' e

/-- The code of `write_helper` after the flush-on-demand block: if the
requested length is at least the capacity, assert the buffer is empty and
write directly to the transport; otherwise copy the bytes into the buffer. -/
def writeTail (st2 : BufWriteFD σ) (extendBytes : List Byte)
    (writeInner : σ → List Fd → σ × List Fd × Except IOErr Nat)
    (toWriteLength : Nat) : Outcome σ Nat :=
  if st2.capacity ≤ toWriteLength then
    if st2.dataBuf.isEmpty then
      let res := writeInner st2.inner st2.fdBuf
      let st3 : BufWriteFD σ := { st2 with inner := res.1, fdBuf := res.2.1 }
      match res.2.2 with
      | .ok n => .ok st3 n
      | .error e => .err st3 e
    else
      .panicked st2 dataAssertMsg
  else
    .ok { st2 with dataBuf := st2.dataBuf ++ extendBytes } toWriteLength

/-- `BufWriteFD::write_helper`. `extendBytes` is what the `write_buffer`
closure appends to the byte buffer, `writeInner` is the `write_inner`
closure, `firstBuffer` and `toWriteLength` are the equally named arguments.
The caller-supplied fds are appended to the fd queue first of all; if the
free buffer space is smaller than the requested length, `flush_buffer` is
attempted, a `WouldBlock` failure of which either propagates (no space at
all) or buffers the fitting front of `firstBuffer`. -/
def writeHelper (T : WriteFDImpl σ) (fuel : Nat) (st : BufWriteFD σ) (fds : List Fd)
    (extendBytes : List Byte)
    (writeInner : σ → List Fd → σ × List Fd × Except IOErr Nat)
    (firstBuffer : List Byte) (toWriteLength : Nat) : Outcome σ Nat :=
  let st1 : BufWriteFD σ := { st with fdBuf := st.fdBuf ++ fds }
  if st1.capacity - st1.dataBuf.length < toWriteLength then
    match flushBuffer T fuel st1 with
    | .ok st2 _ => writeTail st2 extendBytes writeInner toWriteLength
    | .err st2 e =>
      if e.kind = .wouldBlock then
        let availableBuf := st2.capacity - st2.dataBuf.length
        if availableBuf = 0 then
          .err st2 e
        else
          let nToWrite := min firstBuffer.length availableBuf
          .ok { st2 with dataBuf := st2.dataBuf ++ firstBuffer.take nToWrite } nToWrite
      else
        .err st2 e
    | .panicked st2 m => .panicked st2 m
    | .noFuel => .noFuel
  else
    writeTail st1 extendBytes writeInner toWriteLength

/-- `<BufWriteFD as WriteFD>::write`. -/
def BufWriteFD.write (T : WriteFDImpl σ) (fuel : Nat) (st : BufWriteFD σ)
    (buf : List Byte) (fds : List Fd) : Outcome σ Nat :=
  writeHelper T fuel st fds buf (fun s f => T.write s buf f) buf buf.length

/-- Sum of the span lengths, `bufs.iter().map(|b| b.len()).sum()`. -/
def vecLen (bufs : List (List Byte)) : Nat :=
  (bufs.map List.length).sum

/-- The first non-empty span, or the empty slice if there is none. -/
def firstNonempty (bufs : List (List Byte)) : List Byte :=
  (bufs.find? (fun b => !b.isEmpty)).getD []

/-- `<BufWriteFD as WriteFD>::write_vectored`. -/
def BufWriteFD.writeVectored (T : WriteFDImpl σ) (fuel : Nat) (st : BufWriteFD σ)
    (bufs : List (List Byte)) (fds : List Fd) : Outcome σ Nat :=
  writeHelper T fuel st fds bufs.flatten (fun s f => T.writeVectored s bufs f)
    (firstNonempty bufs) (vecLen bufs)

/-- `<BufWriteFD as WriteFD>::flush`: `flush_buffer` and then the inner
transport's `flush`. -/
def BufWriteFD.flush (T : WriteFDImpl σ) (fuel : Nat) (st : BufWriteFD σ) : Outcome σ Unit :=
  match flushBuffer T fuel st with
  | .ok st' _ =>
    let res := T.flush st'.inner
    let st'' : BufWriteFD σ := { st' with inner := res.1 }
    match res.2 with
    | .ok _ => .ok st'' ()
    | .error e => .err st'' e
  | o => o

/-- Projection of the state carried by an `Outcome`, when there is one. -/
def Outcome.stateOf? : Outcome σ α → Option (BufWriteFD σ)
  | .ok st _ => some st
  | .err st _ => some st
  | .panicked st _ => some st
  | .noFuel => none

/-- A predicate holding on every state an `Outcome` can carry. -/
def Outcome.onStates (o : Outcome σ α) (p : BufWriteFD σ → Prop) : Prop :=
  match o with
  | .ok st _ => p st
  | .err st _ => p st
  | .panicked st _ => p st
  | .noFuel => True

/-- A predicate holding on the state of a normal return or an error (the
outcomes a Rust caller can observe). -/
def Outcome.onReturn (o : Outcome σ α) (p : BufWriteFD σ → Prop) : Prop :=
  match o with
  | .ok st _ => p st
  | .err st _ => p st
  | _ => True

/-- An ideal accepting transport: it records every byte and every fd it is
offered and accepts all of them. -/
structure SinkState where
  bytes : List Byte
  fds : List Fd
  deriving DecidableEq

/-- One accepting write: log everything, consume all fds, report all bytes
written. -/
def sinkWrite (s : SinkState) (buf : List Byte) (fds : List Fd) :
    SinkState × List Fd × Except IOErr Nat :=
  (⟨s.bytes ++ buf, s.fds ++ fds⟩, [], .ok buf.length)

/-- The accepting transport. Its vectored write accepts the concatenation of
all spans, as the `WriteFD` contract describes. -/
def sinkT : WriteFDImpl SinkState :=
  { write := sinkWrite
    writeVectored := fun s bufs fds => sinkWrite s bufs.flatten fds
    flush := fun s => (s, .ok ()) }

/-- The test module's `WouldBlockWriter`: `write` always fails with
`WouldBlock`, `write_vectored` is the trait default, `flush` succeeds. -/
def wbT : WriteFDImpl Unit :=
  { write := fun s _ fds => (s, fds, .error ⟨.wouldBlock, "would block"⟩)
    writeVectored := defaultWriteVectored (fun s _ fds => (s, fds, .error ⟨.wouldBlock, "would block"⟩))
    flush := fun s => (s, .ok ()) }

/-- A transport that counts its calls (state = number of calls made) and
accepts everything it is offered on every call. -/
def countT : WriteFDImpl Nat :=
  { write := fun s buf _ => (s + 1, [], .ok buf.length)
    writeVectored := fun s bufs _ => (s + 1, [], .ok (vecLen bufs))
    flush := fun s => (s + 1, .ok ()) }

/-- A transport that counts its `write` calls, accepts everything offered to
`write`, and uses the trait-default `write_vectored`. -/
def countDefT : WriteFDImpl Nat :=
  { write := fun s buf _ => (s + 1, [], .ok buf.length)
    writeVectored := defaultWriteVectored (fun s buf _ => (s + 1, [], .ok buf.length))
    flush := fun s => (s, .ok ()) }

/-- A transport whose writes consume all offered fds while reporting 0 bytes
written. The `WriteFD` documentation does not forbid this: sent fds are
removed from the `Vec` and the return value only counts bytes. -/
def fdSwallowT : WriteFDImpl Unit :=
  { write := fun s _ _ => (s, [], .ok 0)
    writeVectored := fun s _ _ => (s, [], .ok 0)
    flush := fun s => (s, .ok ()) }

/-- One submitted operation on the buffered writer. -/
inductive WOp where
  | write (buf : List Byte) (fds : List Fd)
  | writeV (bufs : List (List Byte)) (fds : List Fd)

/-- The byte payload an operation submits (spans concatenated). -/
def WOp.bytes : WOp → List Byte
  | .write b _ => b
  | .writeV bs _ => bs.flatten

/-- The fds an operation submits. -/
def WOp.fdsOf : WOp → List Fd
  | .write _ f => f
  | .writeV _ f => f

/-- Total byte length of a sequence of operations. -/
def opsLen (ops : List WOp) : Nat :=
  (ops.map (fun o => o.bytes.length)).sum

/-- Run one operation on the buffered writer. -/
def runOp (T : WriteFDImpl σ) (fuel : Nat) (st : BufWriteFD σ) : WOp → Outcome σ Nat
  | .write b f => BufWriteFD.write T fuel st b f
  | .writeV bs f => BufWriteFD.writeVectored T fuel st bs f

/-- Run a sequence of operations, stopping at the first non-`Ok` outcome. -/
def runOps (T : WriteFDImpl σ) (fuel : Nat) : List WOp → BufWriteFD σ → Outcome σ Unit
  | [], st => .ok st ()
  | op :: rest, st =>
    match runOp T fuel st op with
    | .ok st' _ => runOps T fuel rest st'
    | .err st' e => .err st' e
    | .panicked st' m => .panicked st' m
    | .noFuel => .noFuel

/-- Compose: flush the buffered writer after a previous outcome succeeded. -/
def thenFlush (T : WriteFDImpl σ) (fuel : Nat) : Outcome σ Unit → Outcome σ Unit
  | .ok st _ => BufWriteFD.flush T fuel st
  | o => o

/-- A transport conforms to the fd part of the `WriteFD` contract: consumed
fds are removed from the front of the list, so what remains is a suffix. -/
def FdsConforming (T : WriteFDImpl σ) : Prop :=
  (∀ s buf fds, (T.write s buf fds).2.1 <:+ fds) ∧
  (∀ s bufs fds, (T.writeVectored s bufs fds).2.1 <:+ fds)

/-- Does an outcome hit the `assert!(!self.fd_buf.is_empty())` panic of
`flush_buffer`? -/
def isFdAssertPanic (o : Outcome σ α) : Prop :=
  match o with
  | .panicked _ m => m = fdAssertMsg
  | _ => False

/-- A `ReadFD + Poll` reader as a deterministic state machine over states `ρ`.
`read` takes the length of the remaining destination window and returns the
bytes placed into its front (at most that many) plus the received fds. -/
structure ReadFDImpl (ρ : Type) where
  poll : ρ → Bool → Bool → ρ × Except IOErr (Bool × Bool)
  read : ρ → Nat → ρ × Except IOErr (List Byte × List Fd)

/-- `ReadFD::read_exact`'s loop. `n` is the length of the remaining
destination window, `acc` the bytes already written into the destination,
`fds` the contents of `fd_storage`. Returns `none` when the fuel runs out. -/
def readExactAux (R : ReadFDImpl ρ) :
    Nat → ρ → Nat → List Byte → List Fd → Option (ρ × List Byte × List Fd × Except IOErr Unit)
  | 0, _, _, _, _ => none
  | fuel + 1, st, n, acc, fds =>
    if n = 0 then
      some (st, acc, fds, .ok ())
    else
      let pr := R.poll st true false
      match pr.2 with
      | .error e => some (pr.1, acc, fds, .error e)
      | .ok _ =>
        let rr := R.read pr.1 n
        match rr.2 with
        | .ok ([], newFds) =>
          some (rr.1, acc, fds ++ newFds,
            .error ⟨.unexpectedEof, "failed to fill the whole buffer"⟩)
        | .ok (b :: bs, newFds) =>
          readExactAux R fuel rr.1 (n - (b :: bs).length) (acc ++ b :: bs) (fds ++ newFds)
        | .error e =>
          if e.kind = .wouldBlock ∨ e.kind = .interrupted then
            readExactAux R fuel rr.1 n acc fds
          else
            some (rr.1, acc, fds, .error e)

/-- `ReadFD::read_exact` on a destination buffer of length `n` whose window
starts empty. -/
def readExact (R : ReadFDImpl ρ) (fuel : Nat) (st : ρ) (n : Nat) (fds : List Fd) :
    Option (ρ × List Byte × List Fd × Except IOErr Unit) :=
  readExactAux R fuel st n [] fds

/-- A scripted reader: its state is the list of `(bytes, fds)` chunks still to
be delivered, one chunk per `read` call; once the script is exhausted every
`read` returns 0 bytes (end of stream). `poll` always reports readable. -/
def scriptReader : ReadFDImpl (List (List Byte × List Fd)) :=
  { poll := fun s _ _ => (s, .ok (true, false))
    read := fun s n =>
      match s with
      | [] => ([], .ok ([], []))
      | c :: rest => (rest, .ok (c.1.take n, c.2)) }

/-- Every state `flushBuffer` can reach is obtained from the current one by
updating `inner`/`fdBuf` from one transport call and dropping a front part of
the byte buffer; so any predicate preserved by those updates holds on every
state the outcome carries. -/
theorem flushBuffer_invariant (T : WriteFDImpl σ) (p : BufWriteFD σ → Prop)
    (hstep : ∀ st : BufWriteFD σ, ∀ s' fds' r,
      T.writeVectored st.inner [st.dataBuf, []] st.fdBuf = (s', fds', r) →
      p st → ∀ d, (d = st.dataBuf ∨ ∃ k, d = st.dataBuf.drop k) →
        p { inner := s', capacity := st.capacity, dataBuf := d, fdBuf := fds' })
    (fuel : Nat) : ∀ st : BufWriteFD σ, p st → (flushBuffer T fuel st).onStates p := by
  induction fuel with
  | zero => intro st hp; simp [flushBuffer, Outcome.onStates]
  | succ fuel ih =>
    intro st hp
    rw [flushBuffer]
    by_cases hempty : (st.dataBuf.isEmpty && st.fdBuf.isEmpty) = true
    · simp only [hempty, if_true, Outcome.onStates]; exact hp
    · rw [if_neg hempty]
      rcases hw : T.writeVectored st.inner [st.dataBuf, []] st.fdBuf with ⟨s', fds', r⟩
      have hst' : p { inner := s', capacity := st.capacity, dataBuf := st.dataBuf, fdBuf := fds' } :=
        hstep st s' fds' r hw hp st.dataBuf (Or.inl rfl)
      simp only [hw]
      match r with
      | .ok 0 =>
        by_cases hde : ({ st with inner := s', fdBuf := fds' } : BufWriteFD σ).dataBuf.isEmpty = true
        · by_cases hfe : ({ st with inner := s', fdBuf := fds' } : BufWriteFD σ).fdBuf.isEmpty = true
          · simp only [hde, hfe, if_true, Outcome.onStates]; exact hst'
          · simp only [hde, if_true, if_neg hfe, Outcome.onStates]; exact hst'
        · simp only [if_neg hde, Outcome.onStates]; exact hst'
      | .ok (n + 1) =>
        by_cases hle : n + 1 ≤ ({ st with inner := s', fdBuf := fds' } : BufWriteFD σ).dataBuf.length
        · simp only [hle, if_true]
          exact ih _ (hstep st s' fds' _ hw hp _ (Or.inr ⟨n + 1, rfl⟩))
        · simp only [if_neg hle, Outcome.onStates]; exact hst'
      | .error e =>
        by_cases hei : e.kind = ErrKind.interrupted
        · simp only [hei, if_true]
          exact ih _ hst'
        · simp only [if_neg hei, Outcome.onStates]; exact hst'

/-- `flush_buffer` returns `Ok` only once both the byte buffer and the fd
queue are empty. -/
theorem flushBuffer_ok_empty (T : WriteFDImpl σ) (fuel : Nat) :
    ∀ st st' v, flushBuffer T fuel st = .ok st' v →
      st'.dataBuf = [] ∧ st'.fdBuf = [] := by
  induction fuel with
  | zero => intro st st' v h; simp [flushBuffer] at h
  | succ fuel ih =>
    intro st st' v h
    rw [flushBuffer] at h
    by_cases hempty : (st.dataBuf.isEmpty && st.fdBuf.isEmpty) = true
    · simp only [hempty, if_true] at h
      cases h
      simp only [Bool.and_eq_true, List.isEmpty_iff] at hempty
      exact hempty
    · rw [if_neg hempty] at h
      rcases hw : T.writeVectored st.inner [st.dataBuf, []] st.fdBuf with ⟨s', fds', r⟩
      simp only [hw] at h
      match r with
      | .ok 0 =>
        by_cases hde : ({ st with inner := s', fdBuf := fds' } : BufWriteFD σ).dataBuf.isEmpty = true
        · by_cases hfe : ({ st with inner := s', fdBuf := fds' } : BufWriteFD σ).fdBuf.isEmpty = true
          · simp only [hde, hfe, if_true] at h; cases h
          · simp only [hde, if_true, if_neg hfe] at h; cases h
        · simp only [if_neg hde] at h; cases h
      | .ok (n + 1) =>
        by_cases hle : n + 1 ≤ ({ st with inner := s', fdBuf := fds' } : BufWriteFD σ).dataBuf.length
        · simp only [hle, if_true] at h
          exact ih _ _ _ h
        · simp only [if_neg hle] at h; cases h
      | .error e =>
        by_cases hei : e.kind = ErrKind.interrupted
        · simp only [hei, if_true] at h
          exact ih _ _ _ h
        · simp only [if_neg hei] at h; cases h

/-- `flush_buffer` never changes the capacity and never grows the byte
buffer. -/
theorem flushBuffer_capLen (T : WriteFDImpl σ) (fuel : Nat) (st : BufWriteFD σ) :
    (flushBuffer T fuel st).onStates
      (fun s => s.capacity = st.capacity ∧ s.dataBuf.length ≤ st.dataBuf.length) := by
  refine flushBuffer_invariant T _ ?_ fuel st ⟨rfl, le_refl _⟩
  intro st1 s' fds' r hw hp d hd
  refine ⟨hp.1, ?_⟩
  rcases hd with rfl | ⟨k, rfl⟩
  · exact hp.2
  · calc (st1.dataBuf.drop k).length ≤ st1.dataBuf.length := by
          rw [List.length_drop]; omega
      _ ≤ st.dataBuf.length := hp.2

/-- Under a conforming transport, `flush_buffer` only ever removes fds from
the front of the queue: every reachable fd queue is a suffix of the initial
one. -/
theorem flushBuffer_fdSuffix (T : WriteFDImpl σ)
    (hT : ∀ s bufs fds, (T.writeVectored s bufs fds).2.1 <:+ fds)
    (fuel : Nat) (st : BufWriteFD σ) :
    (flushBuffer T fuel st).onStates (fun s => s.fdBuf <:+ st.fdBuf) := by
  refine flushBuffer_invariant T _ ?_ fuel st (List.suffix_refl _)
  intro st1 s' fds' r hw hp d hd
  have h1 : fds' <:+ st1.fdBuf := by
    have := hT st1.inner [st1.dataBuf, []] st1.fdBuf
    rw [hw] at this
    exact this
  exact h1.trans hp

/-- The after-flush part of `write_helper` keeps the byte buffer within
capacity, provided the buffer is within capacity and the write fits whenever
it takes the copy-into-buffer path. -/
theorem writeTail_bounded (st2 : BufWriteFD σ) (extendBytes : List Byte)
    (writeInner : σ → List Fd → σ × List Fd × Except IOErr Nat)
    (tw : Nat) (hlen : extendBytes.length = tw)
    (h1 : st2.dataBuf.length ≤ st2.capacity)
    (h2 : tw < st2.capacity → st2.dataBuf.length + tw ≤ st2.capacity) :
    (writeTail st2 extendBytes writeInner tw).onStates
      (fun s => s.capacity = st2.capacity ∧ s.dataBuf.length ≤ st2.capacity) := by
  rw [writeTail]
  by_cases hc : st2.capacity ≤ tw
  · rw [if_pos hc]
    by_cases hde : st2.dataBuf.isEmpty = true
    · rw [if_pos hde]
      rcases hw : writeInner st2.inner st2.fdBuf with ⟨s', fds', r⟩
      simp only [hw]
      match r with
      | .ok n => exact ⟨rfl, h1⟩
      | .error e => exact ⟨rfl, h1⟩
    · rw [if_neg hde]
      exact ⟨rfl, h1⟩
  · rw [if_neg hc]
    refine ⟨rfl, ?_⟩
    rw [List.length_append, hlen]
    exact h2 (by omega)

/-- The after-flush part of `write_helper` only removes fds from the front of
the queue, provided `write_inner` conforms. -/
theorem writeTail_fdSuffix (st2 : BufWriteFD σ) (extendBytes : List Byte)
    (writeInner : σ → List Fd → σ × List Fd × Except IOErr Nat)
    (tw : Nat) (hwi : ∀ s f, (writeInner s f).2.1 <:+ f) :
    (writeTail st2 extendBytes writeInner tw).onStates
      (fun s => s.fdBuf <:+ st2.fdBuf) := by
  rw [writeTail]
  by_cases hc : st2.capacity ≤ tw
  · rw [if_pos hc]
    by_cases hde : st2.dataBuf.isEmpty = true
    · rw [if_pos hde]
      rcases hw : writeInner st2.inner st2.fdBuf with ⟨s', fds', r⟩
      have h1 : fds' <:+ st2.fdBuf := by
        have := hwi st2.inner st2.fdBuf
        rw [hw] at this
        exact this
      simp only [hw]
      match r with
      | .ok n => exact h1
      | .error e => exact h1
    · rw [if_neg hde]
      exact List.suffix_refl _
  · rw [if_neg hc]
    exact List.suffix_refl _

/-- Weakening for `Outcome.onStates`. -/
theorem Outcome.onStates_mono {o : Outcome σ α} {p q : BufWriteFD σ → Prop}
    (h : o.onStates p) (hpq : ∀ s, p s → q s) : o.onStates q := by
  match o with
  | .ok st v => exact hpq st h
  | .err st e => exact hpq st h
  | .panicked st m => exact hpq st h
  | .noFuel => trivial

/-- `write_helper` keeps the byte buffer within capacity and preserves the
capacity, for any transport. -/
theorem writeHelper_bounded (T : WriteFDImpl σ) (fuel : Nat) (st : BufWriteFD σ)
    (fds : List Fd) (extendBytes : List Byte)
    (writeInner : σ → List Fd → σ × List Fd × Except IOErr Nat)
    (firstBuffer : List Byte) (tw : Nat)
    (hlen : extendBytes.length = tw) (hcap : st.dataBuf.length ≤ st.capacity) :
    (writeHelper T fuel st fds extendBytes writeInner firstBuffer tw).onStates
      (fun s => s.capacity = st.capacity ∧ s.dataBuf.length ≤ st.capacity) := by
  rw [writeHelper]
  dsimp only
  by_cases hfree : st.capacity - st.dataBuf.length < tw
  · rw [if_pos hfree]
    cases hfb : flushBuffer T fuel { st with fdBuf := st.fdBuf ++ fds } with
    | ok st2 v =>
      have hinv := flushBuffer_capLen T fuel { st with fdBuf := st.fdBuf ++ fds }
      rw [hfb] at hinv
      simp only [Outcome.onStates] at hinv
      have hde := flushBuffer_ok_empty T fuel _ _ _ hfb
      refine Outcome.onStates_mono
        (writeTail_bounded st2 extendBytes writeInner tw hlen ?_ ?_) ?_
      · rw [hde.1]; exact Nat.zero_le _
      · intro htw; rw [hde.1]; simpa using Nat.le_of_lt htw
      · intro s hs
        exact ⟨hs.1.trans hinv.1, by rw [← hinv.1]; exact hs.2⟩
    | err st2 e =>
      have hinv := flushBuffer_capLen T fuel { st with fdBuf := st.fdBuf ++ fds }
      rw [hfb] at hinv
      simp only [Outcome.onStates] at hinv
      dsimp only
      by_cases hek : e.kind = ErrKind.wouldBlock
      · rw [if_pos hek]
        by_cases hav : st2.capacity - st2.dataBuf.length = 0
        · rw [if_pos hav]
          exact ⟨hinv.1, hinv.2.trans hcap⟩
        · rw [if_neg hav]
          refine ⟨hinv.1, ?_⟩
          have h1 : (firstBuffer.take (min firstBuffer.length
              (st2.capacity - st2.dataBuf.length))).length ≤
              st2.capacity - st2.dataBuf.length := by
            rw [List.length_take]
            omega
          rw [List.length_append]
          omega
      · rw [if_neg hek]
        exact ⟨hinv.1, hinv.2.trans hcap⟩
    | panicked st2 m =>
      have hinv := flushBuffer_capLen T fuel { st with fdBuf := st.fdBuf ++ fds }
      rw [hfb] at hinv
      simp only [Outcome.onStates] at hinv
      exact ⟨hinv.1, hinv.2.trans hcap⟩
    | noFuel => trivial
  · rw [if_neg hfree]
    refine Outcome.onStates_mono
      (writeTail_bounded { st with fdBuf := st.fdBuf ++ fds } extendBytes writeInner tw hlen
        hcap ?_) ?_
    · intro htw
      simp only
      omega
    · intro s hs
      exact hs

/-- `write_helper` moves the caller's fds to the back of the queue and only
ever removes fds from the front: on every reachable state the fd queue is a
suffix of `st.fdBuf ++ fds`, for any transport conforming to the fd part of
the `WriteFD` contract. -/
theorem writeHelper_fdSuffix (T : WriteFDImpl σ) (fuel : Nat) (st : BufWriteFD σ)
    (fds : List Fd) (extendBytes : List Byte)
    (writeInner : σ → List Fd → σ × List Fd × Except IOErr Nat)
    (firstBuffer : List Byte) (tw : Nat)
    (hTv : ∀ s bufs fds, (T.writeVectored s bufs fds).2.1 <:+ fds)
    (hwi : ∀ s f, (writeInner s f).2.1 <:+ f) :
    (writeHelper T fuel st fds extendBytes writeInner firstBuffer tw).onStates
      (fun s => s.fdBuf <:+ st.fdBuf ++ fds) := by
  rw [writeHelper]
  dsimp only
  by_cases hfree : st.capacity - st.dataBuf.length < tw
  · rw [if_pos hfree]
    cases hfb : flushBuffer T fuel { st with fdBuf := st.fdBuf ++ fds } with
    | ok st2 v =>
      have hinv := flushBuffer_fdSuffix T hTv fuel { st with fdBuf := st.fdBuf ++ fds }
      rw [hfb] at hinv
      simp only [Outcome.onStates] at hinv
      exact Outcome.onStates_mono
        (writeTail_fdSuffix st2 extendBytes writeInner tw hwi)
        (fun s hs => hs.trans hinv)
    | err st2 e =>
      have hinv := flushBuffer_fdSuffix T hTv fuel { st with fdBuf := st.fdBuf ++ fds }
      rw [hfb] at hinv
      simp only [Outcome.onStates] at hinv
      dsimp only
      by_cases hek : e.kind = ErrKind.wouldBlock
      · rw [if_pos hek]
        by_cases hav : st2.capacity - st2.dataBuf.length = 0
        · rw [if_pos hav]; exact hinv
        · rw [if_neg hav]; exact hinv
      · rw [if_neg hek]; exact hinv
    | panicked st2 m =>
      have hinv := flushBuffer_fdSuffix T hTv fuel { st with fdBuf := st.fdBuf ++ fds }
      rw [hfb] at hinv
      simp only [Outcome.onStates] at hinv
      exact hinv
    | noFuel => trivial
  · rw [if_neg hfree]
    exact Outcome.onStates_mono
      (writeTail_fdSuffix { st with fdBuf := st.fdBuf ++ fds } extendBytes writeInner tw hwi)
      (fun s hs => hs)

/-- C8: the byte buffer starts empty and every `write`, `write_vectored` and
`flush` call keeps its length at most the construction capacity `C` (which
itself never changes). -/
theorem buffer_length_bounded_by_capacity :
    (∀ (σ : Type) (inner : σ) (cap : Nat),
      (BufWriteFD.withCapacity cap inner).dataBuf.length = 0 ∧
      (BufWriteFD.withCapacity cap inner).capacity = cap) ∧
    (∀ (σ : Type) (T : WriteFDImpl σ) (fuel : Nat) (st : BufWriteFD σ)
        (buf : List Byte) (fds : List Fd),
      st.dataBuf.length ≤ st.capacity →
      (BufWriteFD.write T fuel st buf fds).onStates
        (fun s => s.dataBuf.length ≤ st.capacity ∧ s.capacity = st.capacity)) ∧
    (∀ (σ : Type) (T : WriteFDImpl σ) (fuel : Nat) (st : BufWriteFD σ)
        (bufs : List (List Byte)) (fds : List Fd),
      st.dataBuf.length ≤ st.capacity →
      (BufWriteFD.writeVectored T fuel st bufs fds).onStates
        (fun s => s.dataBuf.length ≤ st.capacity ∧ s.capacity = st.capacity)) ∧
    (∀ (σ : Type) (T : WriteFDImpl σ) (fuel : Nat) (st : BufWriteFD σ),
      st.dataBuf.length ≤ st.capacity →
      (BufWriteFD.flush T fuel st).onStates
        (fun s => s.dataBuf.length ≤ st.capacity ∧ s.capacity = st.capacity)) := by
  refine ⟨fun σ inner cap => ⟨rfl, rfl⟩, ?_, ?_, ?_⟩
  · intro σ T fuel st buf fds h
    exact Outcome.onStates_mono
      (writeHelper_bounded T fuel st fds buf _ buf buf.length rfl h)
      (fun s hs => ⟨hs.2, hs.1⟩)
  · intro σ T fuel st bufs fds h
    refine Outcome.onStates_mono
      (writeHelper_bounded T fuel st fds bufs.flatten _ (firstNonempty bufs)
        (vecLen bufs) ?_ h)
      (fun s hs => ⟨hs.2, hs.1⟩)
    simp [vecLen, List.length_flatten]
  · intro σ T fuel st h
    rw [BufWriteFD.flush]
    cases hfb : flushBuffer T fuel st with
    | ok st' v =>
      have hinv := flushBuffer_capLen T fuel st
      rw [hfb] at hinv
      simp only [Outcome.onStates] at hinv
      dsimp only
      rcases hfl : T.flush st'.inner with ⟨s2, r2⟩
      simp only [hfl]
      match r2 with
      | .ok v2 => exact ⟨hinv.2.trans h, hinv.1⟩
      | .error e2 => exact ⟨hinv.2.trans h, hinv.1⟩
    | err st' e =>
      have hinv := flushBuffer_capLen T fuel st
      rw [hfb] at hinv
      simp only [Outcome.onStates] at hinv
      exact ⟨hinv.2.trans h, hinv.1⟩
    | panicked st' m =>
      have hinv := flushBuffer_capLen T fuel st
      rw [hfb] at hinv
      simp only [Outcome.onStates] at hinv
      exact ⟨hinv.2.trans h, hinv.1⟩
    | noFuel => trivial

/-- Witness for C8 at concrete inputs. -/
theorem buffer_length_bounded_by_capacity_witness :
    ((BufWriteFD.withCapacity 4 (0 : Nat)).dataBuf.length = 0 ∧
      (BufWriteFD.withCapacity 4 (0 : Nat)).capacity = 4) ∧
    (BufWriteFD.write countT 2 ⟨0, 4, [1, 2], []⟩ [3, 4, 5] [9]).onStates
      (fun s => s.dataBuf.length ≤ 4 ∧ s.capacity = 4) ∧
    (BufWriteFD.writeVectored countT 2 ⟨0, 4, [1, 2], []⟩ [[3], [4, 5]] [9]).onStates
      (fun s => s.dataBuf.length ≤ 4 ∧ s.capacity = 4) ∧
    (BufWriteFD.flush countT 2 ⟨0, 4, [1, 2], [9]⟩).onStates
      (fun s => s.dataBuf.length ≤ 4 ∧ s.capacity = 4) :=
  ⟨buffer_length_bounded_by_capacity.1 Nat 0 4,
    buffer_length_bounded_by_capacity.2.1 Nat countT 2 ⟨0, 4, [1, 2], []⟩ [3, 4, 5] [9]
      (by decide),
    buffer_length_bounded_by_capacity.2.2.1 Nat countT 2 ⟨0, 4, [1, 2], []⟩ [[3], [4, 5]] [9]
      (by decide),
    buffer_length_bounded_by_capacity.2.2.2 Nat countT 2 ⟨0, 4, [1, 2], [9]⟩ (by decide)⟩

/-- The total span length of no spans is 0. -/
theorem vecLen_nil : vecLen [] = 0 := rfl

/-- With no spans there is no non-empty span. -/
theorem firstNonempty_nil : firstNonempty [] = [] := rfl

/-- C9: `write_vectored` with no spans succeeds with 0 bytes written, touches
neither the byte buffer nor the transport, and only appends the fds; the
hypothesis `0 < capacity` holds for every writer the library constructs. -/
theorem writeV_no_spans_ok_zero :
    ∀ (σ : Type) (T : WriteFDImpl σ) (fuel : Nat) (st : BufWriteFD σ) (fds : List Fd),
      0 < st.capacity →
      BufWriteFD.writeVectored T fuel st [] fds =
        .ok { st with fdBuf := st.fdBuf ++ fds } 0 := by
  intro σ T fuel st fds hc
  rw [BufWriteFD.writeVectored]
  simp only [List.flatten_nil, vecLen_nil, firstNonempty_nil]
  rw [writeHelper]
  dsimp only
  rw [if_neg (Nat.not_lt_zero _)]
  rw [writeTail]
  dsimp only
  rw [if_neg (by omega)]
  simp

/-- Witness for C9 at a concrete input. -/
theorem writeV_no_spans_ok_zero_witness :
    BufWriteFD.writeVectored wbT 1 ⟨⟨⟩, 2, [5], [7]⟩ [] [8] = .ok ⟨⟨⟩, 2, [5], [7, 8]⟩ 0 :=
  writeV_no_spans_ok_zero Unit wbT 1 ⟨⟨⟩, 2, [5], [7]⟩ [8] (by decide)

/-- C3 (amended): a `write` whose length equals the free capacity and is
strictly below the full capacity is buffered whole, succeeds with the full
length, and does not touch the transport (the inner state is unchanged, for
every transport). -/
theorem write_exact_free_without_transport :
    ∀ (σ : Type) (T : WriteFDImpl σ) (fuel : Nat) (st : BufWriteFD σ)
      (buf : List Byte) (fds : List Fd),
      buf.length = st.capacity - st.dataBuf.length →
      buf.length < st.capacity →
      BufWriteFD.write T fuel st buf fds =
        .ok { st with dataBuf := st.dataBuf ++ buf, fdBuf := st.fdBuf ++ fds }
          buf.length := by
  intro σ T fuel st buf fds hfit hlt
  rw [BufWriteFD.write, writeHelper]
  dsimp only
  rw [if_neg (by omega)]
  rw [writeTail]
  dsimp only
  rw [if_neg (by omega)]

/-- Witness for the amended C3 at a concrete input. -/
theorem write_exact_free_without_transport_witness :
    BufWriteFD.write countT 1 ⟨0, 2, [5], []⟩ [6] [3] = .ok ⟨0, 2, [5, 6], [3]⟩ 1 :=
  write_exact_free_without_transport Nat countT 1 ⟨0, 2, [5], []⟩ [6] [3]
    (by decide) (by decide)

/-- C3 counterexample: with an empty buffer and a write of length exactly the
capacity (which is then the free capacity), the write takes the zero-copy
path and does invoke the transport: the call-counting transport's state goes
from 0 to 1. -/
theorem write_exact_free_calls_transport_cex :
    BufWriteFD.write countT 1 (BufWriteFD.withCapacity 1 0) [7] [] = .ok ⟨1, 1, [], []⟩ 1 ∧
    BufWriteFD.write countT 1 (BufWriteFD.withCapacity 1 0) [7] [] ≠ .ok ⟨0, 1, [], []⟩ 1 := by
  exact ⟨by decide, by decide⟩

/-- C4 (amended): a `write` of length at least `C` on an empty byte buffer —
with an empty fd queue when the length strictly exceeds `C` — is exactly one
direct transport `write` of the whole payload, and nothing is copied into the
byte buffer. -/
theorem large_write_empty_buffer_direct_write :
    ∀ (σ : Type) (T : WriteFDImpl σ) (fuel : Nat) (st : BufWriteFD σ)
      (buf : List Byte) (fds : List Fd),
      st.dataBuf = [] →
      (buf.length = st.capacity ∨
        (st.capacity < buf.length ∧ st.fdBuf ++ fds = [])) →
      BufWriteFD.write T (fuel + 1) st buf fds =
        (match T.write st.inner buf (st.fdBuf ++ fds) with
         | (s', f', .ok n) => .ok ⟨s', st.capacity, [], f'⟩ n
         | (s', f', .error e) => .err ⟨s', st.capacity, [], f'⟩ e) := by
  intro σ T fuel st buf fds hd hcase
  rw [BufWriteFD.write, writeHelper]
  dsimp only
  rcases hcase with hbl | ⟨hbl, hfd⟩
  · rw [if_neg (by rw [hd]; simp only [List.length_nil]; omega)]
    simp only [writeTail]
    rw [if_pos (by omega)]
    rw [if_pos (by simp [hd])]
    rcases hw : T.write st.inner buf (st.fdBuf ++ fds) with ⟨s', f', r⟩
    simp only [hw]
    match r with
    | .ok n => simp [hd]
    | .error e => simp [hd]
  · rw [if_pos (by rw [hd]; simp only [List.length_nil]; omega)]
    have hfb : flushBuffer T (fuel + 1)
        { st with fdBuf := st.fdBuf ++ fds } =
        .ok { st with fdBuf := st.fdBuf ++ fds } () := by
      rw [flushBuffer]
      rw [if_pos (by simp [hd, hfd])]
    rw [hfb]
    simp only [writeTail]
    rw [if_pos (by omega)]
    rw [if_pos (by simp [hd])]
    rcases hw : T.write st.inner buf (st.fdBuf ++ fds) with ⟨s', f', r⟩
    simp only [hw]
    match r with
    | .ok n => simp [hd]
    | .error e => simp [hd]

/-- Witness for the amended C4 at concrete inputs (one per disjunct of the
hypothesis). -/
theorem large_write_empty_buffer_direct_write_witness :
    BufWriteFD.write countT 1 ⟨0, 2, [], []⟩ [1, 2] [9] = .ok ⟨1, 2, [], []⟩ 2 ∧
    BufWriteFD.write countT 1 ⟨0, 2, [], []⟩ [1, 2, 3] [] = .ok ⟨1, 2, [], []⟩ 3 :=
  ⟨large_write_empty_buffer_direct_write Nat countT 0 ⟨0, 2, [], []⟩ [1, 2] [9]
      rfl (Or.inl (by decide)),
    large_write_empty_buffer_direct_write Nat countT 0 ⟨0, 2, [], []⟩ [1, 2, 3] []
      rfl (Or.inr ⟨by decide, rfl⟩)⟩

/-- C4 counterexample: a write of length above `C` with an fd present and an
empty byte buffer does NOT result in one direct transport write: the
pre-write flush offers only the fds (two empty byte slices), the trait
default `write_vectored` returns `Ok(0)` without consuming them, and the call
fails with the `WriteZero` "buffered FDs" error; the write-call counter of
the transport stays 0, so no transport write happened at all. -/
theorem large_write_empty_buffer_single_call_cex :
    BufWriteFD.write countDefT 1 (BufWriteFD.withCapacity 1 0) [1, 2] [9] =
      .err ⟨0, 1, [], [9]⟩ ⟨.writeZero, "failed to write the buffered FDs"⟩ := by
  decide

/-- `write_helper` in the flush-fails-with-`WouldBlock` case: with no free
space the error propagates; otherwise the front of `first_buffer` that fits
is appended to the byte buffer and reported written. -/
theorem writeHelper_flush_wouldBlock (T : WriteFDImpl σ) (fuel : Nat)
    (st : BufWriteFD σ) (fds : List Fd) (extendBytes : List Byte)
    (writeInner : σ → List Fd → σ × List Fd × Except IOErr Nat)
    (firstBuffer : List Byte) (tw : Nat) (st2 : BufWriteFD σ) (e : IOErr)
    (hfree : st.capacity - st.dataBuf.length < tw)
    (hfb : flushBuffer T fuel { st with fdBuf := st.fdBuf ++ fds } = .err st2 e)
    (hek : e.kind = .wouldBlock) :
    writeHelper T fuel st fds extendBytes writeInner firstBuffer tw =
      if st2.capacity - st2.dataBuf.length = 0 then .err st2 e
      else
        .ok { st2 with dataBuf := st2.dataBuf ++
            firstBuffer.take (min firstBuffer.length
              (st2.capacity - st2.dataBuf.length)) }
          (min firstBuffer.length (st2.capacity - st2.dataBuf.length)) := by
  rw [writeHelper]
  dsimp only
  rw [if_pos hfree, hfb]
  dsimp only
  rw [if_pos hek]

/-- C2 (amended): when a `write`/`write_vectored` does not fit in the free
space and the internal flush fails with `WouldBlock`: with free space 0 the
`WouldBlock` error propagates; with free space `s > 0` the call succeeds,
buffering and reporting the prefix that fits of the new bytes for `write`,
but of the FIRST NON-EMPTY SPAN (not the concatenation) for
`write_vectored`. -/
theorem buffering_front_of_first_nonempty :
    (∀ (σ : Type) (T : WriteFDImpl σ) (fuel : Nat) (st : BufWriteFD σ)
        (buf : List Byte) (fds : List Fd) (st2 : BufWriteFD σ) (e : IOErr),
      st.capacity - st.dataBuf.length < buf.length →
      flushBuffer T fuel { st with fdBuf := st.fdBuf ++ fds } = .err st2 e →
      e.kind = .wouldBlock →
      BufWriteFD.write T fuel st buf fds =
        if st2.capacity - st2.dataBuf.length = 0 then .err st2 e
        else
          .ok { st2 with dataBuf := (st2.dataBuf ++
              buf.take (min buf.length (st2.capacity - st2.dataBuf.length))) }
            (min buf.length (st2.capacity - st2.dataBuf.length))) ∧
    (∀ (σ : Type) (T : WriteFDImpl σ) (fuel : Nat) (st : BufWriteFD σ)
        (bufs : List (List Byte)) (fds : List Fd) (st2 : BufWriteFD σ) (e : IOErr),
      st.capacity - st.dataBuf.length < vecLen bufs →
      flushBuffer T fuel { st with fdBuf := st.fdBuf ++ fds } = .err st2 e →
      e.kind = .wouldBlock →
      BufWriteFD.writeVectored T fuel st bufs fds =
        if st2.capacity - st2.dataBuf.length = 0 then .err st2 e
        else
          .ok { st2 with dataBuf := (st2.dataBuf ++
              (firstNonempty bufs).take (min (firstNonempty bufs).length
                (st2.capacity - st2.dataBuf.length))) }
            (min (firstNonempty bufs).length
              (st2.capacity - st2.dataBuf.length))) := by
  constructor
  · intro σ T fuel st buf fds st2 e hfree hfb hek
    exact writeHelper_flush_wouldBlock T fuel st fds buf _ buf buf.length st2 e
      hfree hfb hek
  · intro σ T fuel st bufs fds st2 e hfree hfb hek
    exact writeHelper_flush_wouldBlock T fuel st fds bufs.flatten _
      (firstNonempty bufs) (vecLen bufs) st2 e hfree hfb hek

/-- Witness for the amended C2 at a concrete input: capacity 4, two bytes
buffered (free space 2), spans `[[1], [2, 3]]`; only `take 1` of the first
non-empty span is buffered and 1 is reported. -/
theorem buffering_front_of_first_nonempty_witness :
    BufWriteFD.writeVectored wbT 1 ⟨⟨⟩, 4, [0, 0], []⟩ [[1], [2, 3]] [] =
      .ok ⟨⟨⟩, 4, [0, 0, 1], []⟩ 1 := by
  have h := buffering_front_of_first_nonempty.2 Unit wbT 1
    ⟨⟨⟩, 4, [0, 0], []⟩ [[1], [2, 3]] [] ⟨⟨⟩, 4, [0, 0], []⟩
    ⟨.wouldBlock, "would block"⟩ (by decide) (by decide) rfl
  simpa using h

/-- C2 counterexample: in the same situation the claim as stated predicts
that the prefix of the CONCATENATION that fits (2 bytes, `[1, 2]`) is
buffered and reported; the code buffers only 1 byte of the first non-empty
span. -/
theorem buffering_concatenation_cex :
    BufWriteFD.writeVectored wbT 1 ⟨⟨⟩, 4, [0, 0], []⟩ [[1], [2, 3]] [] =
      .ok ⟨⟨⟩, 4, [0, 0, 1], []⟩ 1 ∧
    BufWriteFD.writeVectored wbT 1 ⟨⟨⟩, 4, [0, 0], []⟩ [[1], [2, 3]] [] ≠
      .ok ⟨⟨⟩, 4, [0, 0, 1, 2], []⟩ 2 :=
  ⟨by decide, by decide⟩

/-- C5: the `incorrect_eof` regression scenario: `write_vectored` on
`[empty, "fooo"]` with capacity 1 against the always-`WouldBlock` transport
returns either a `WouldBlock` error or a positive byte count — never a
successful zero-byte result. (Concretely it is the `WouldBlock` error.) -/
theorem writeV_leading_empty_not_zero_success :
    (∃ st e,
      BufWriteFD.writeVectored wbT 2 (BufWriteFD.withCapacity 1 ⟨⟩)
          [[], [102, 111, 111, 111]] [] = .err st e ∧
        e.kind = .wouldBlock) ∨
    (∃ st n,
      BufWriteFD.writeVectored wbT 2 (BufWriteFD.withCapacity 1 ⟨⟩)
          [[], [102, 111, 111, 111]] [] = .ok st (n + 1)) :=
  Or.inl ⟨⟨⟨⟩, 1, [], []⟩, ⟨.wouldBlock, "would block"⟩, by decide, rfl⟩

/-- C10 counterexample: a transport that consumes the offered fds while
reporting `Ok(0)` — permitted by the `WriteFD` contract — makes the
`assert!(!self.fd_buf.is_empty())` in `flush_buffer` fail. -/
theorem flush_fd_assert_cex :
    flushBuffer fdSwallowT 1 ⟨⟨⟩, 1, [], [9]⟩ = .panicked ⟨⟨⟩, 1, [], []⟩ fdAssertMsg ∧
    isFdAssertPanic (flushBuffer fdSwallowT 1 ⟨⟨⟩, 1, [], [9]⟩) :=
  ⟨by decide, by rw [(by decide : flushBuffer fdSwallowT 1 ⟨⟨⟩, 1, [], [9]⟩ =
      .panicked ⟨⟨⟩, 1, [], []⟩ fdAssertMsg)]; exact rfl⟩

/-- C10 (amended): for every transport that never consumes the whole
(non-empty) fd list on a call that reports `Ok(0)`, the fd assertion in
`flush_buffer` cannot fail, and hence `flush` never panics there. -/
theorem flush_fd_assert_safe :
    ∀ (σ : Type) (T : WriteFDImpl σ),
      (∀ (s : σ) (bufs : List (List Byte)) (fds : List Fd),
        fds ≠ [] → (T.writeVectored s bufs fds).2.2 = .ok 0 →
          (T.writeVectored s bufs fds).2.1 ≠ []) →
      ∀ (fuel : Nat) (st : BufWriteFD σ),
        ¬ isFdAssertPanic (flushBuffer T fuel st) ∧
        ¬ isFdAssertPanic (BufWriteFD.flush T fuel st) := by
  intro σ T hT fuel
  have hmain : ∀ st : BufWriteFD σ, ¬ isFdAssertPanic (flushBuffer T fuel st) := by
    induction fuel with
    | zero => intro st; simp [flushBuffer, isFdAssertPanic]
    | succ fuel ih =>
      intro st
      rw [flushBuffer]
      by_cases hempty : (st.dataBuf.isEmpty && st.fdBuf.isEmpty) = true
      · simp [hempty, isFdAssertPanic]
      · rw [if_neg hempty]
        rcases hw : T.writeVectored st.inner [st.dataBuf, []] st.fdBuf with ⟨s', fds', r⟩
        simp only [hw]
        match r with
        | .ok 0 =>
          by_cases hde : ({ st with inner := s', fdBuf := fds' } : BufWriteFD σ).dataBuf.isEmpty = true
          · by_cases hfe : ({ st with inner := s', fdBuf := fds' } : BufWriteFD σ).fdBuf.isEmpty = true
            · exfalso
              have hfdne : st.fdBuf ≠ [] := by
                intro hnil
                apply hempty
                simp only [Bool.and_eq_true]
                constructor
                · exact hde
                · simp [hnil]
              have := hT st.inner [st.dataBuf, []] st.fdBuf hfdne (by rw [hw])
              rw [hw] at this
              simp only at this
              simp only [List.isEmpty_iff] at hfe
              exact this hfe
            · simp only [hde, if_true, if_neg hfe, isFdAssertPanic]
              exact fun h => h
          · simp only [if_neg hde, isFdAssertPanic]
            exact fun h => h
        | .ok (n + 1) =>
          by_cases hle : n + 1 ≤ ({ st with inner := s', fdBuf := fds' } : BufWriteFD σ).dataBuf.length
          · simp only [hle, if_true]
            exact ih _
          · simp only [if_neg hle, isFdAssertPanic]
            intro h
            exact absurd h (by decide)
        | .error e =>
          by_cases hei : e.kind = ErrKind.interrupted
          · simp only [hei, if_true]
            exact ih _
          · simp only [if_neg hei, isFdAssertPanic]
            exact fun h => h
  intro st
  refine ⟨hmain st, ?_⟩
  rw [BufWriteFD.flush]
  cases hfb : flushBuffer T fuel st with
  | ok st' v =>
    dsimp only
    rcases hfl : T.flush st'.inner with ⟨s2, r2⟩
    simp only [hfl]
    match r2 with
    | .ok v2 => simp [isFdAssertPanic]
    | .error e2 => simp [isFdAssertPanic]
  | err st' e => simp [isFdAssertPanic]
  | panicked st' m =>
    have := hmain st
    rw [hfb] at this
    exact this
  | noFuel => simp [isFdAssertPanic]

/-- The `WouldBlockWriter`'s vectored write never consumes fds when it
returns `Ok(0)` (it only returns `Ok(0)` with the fd list untouched). -/
theorem wbT_vectored_keeps_fds :
    ∀ (s : Unit) (bufs : List (List Byte)) (fds : List Fd),
      (wbT.writeVectored s bufs fds).2.1 = fds := by
  intro s bufs
  induction bufs with
  | nil => intro fds; rfl
  | cons b rest ih =>
    intro fds
    show (defaultWriteVectored _ s (b :: rest) fds).2.1 = fds
    rw [defaultWriteVectored]
    by_cases hb : b.isEmpty = true
    · rw [if_pos hb]; exact ih fds
    · rw [if_neg hb]

/-- The `WouldBlockWriter`'s vectored write in particular never consumes the
whole fd list when reporting `Ok(0)`. -/
theorem wbT_zero_keeps_fds :
    ∀ (s : Unit) (bufs : List (List Byte)) (fds : List Fd),
      fds ≠ [] → (wbT.writeVectored s bufs fds).2.2 = .ok 0 →
        (wbT.writeVectored s bufs fds).2.1 ≠ [] := by
  intro s bufs fds hne hok
  rw [wbT_vectored_keeps_fds]
  exact hne

/-- Witness for the amended C10 at a concrete input. -/
theorem flush_fd_assert_safe_witness :
    ¬ isFdAssertPanic (flushBuffer wbT 1 ⟨⟨⟩, 1, [], [9]⟩) ∧
    ¬ isFdAssertPanic (BufWriteFD.flush wbT 1 ⟨⟨⟩, 1, [], [9]⟩) :=
  flush_fd_assert_safe Unit wbT wbT_zero_keeps_fds 1 ⟨⟨⟩, 1, [], [9]⟩

/-- Weakening for `Outcome.onReturn`. -/
theorem Outcome.onReturn_mono {o : Outcome σ α} {p q : BufWriteFD σ → Prop}
    (h : o.onReturn p) (hpq : ∀ s, p s → q s) : o.onReturn q := by
  match o with
  | .ok st v => exact hpq st h
  | .err st e => exact hpq st h
  | .panicked st m => trivial
  | .noFuel => trivial

/-- Evaluation of the `WouldBlockWriter`'s vectored write on the two slices
`flush_buffer` offers. -/
theorem wb_vectored_two_slices (s : Unit) (l : List Byte) (fds : List Fd) :
    wbT.writeVectored s [l, []] fds =
      (s, fds, if l.isEmpty then .ok 0
        else .error ⟨.wouldBlock, "would block"⟩) := by
  cases l with
  | nil => rfl
  | cons d ds => rfl

/-- Against the `WouldBlockWriter`, `flush_buffer` either runs out of fuel,
succeeds (buffer and queue already empty), or fails leaving the state
exactly as it was. -/
theorem flushBuffer_wb (fuel : Nat) (st : BufWriteFD Unit) :
    flushBuffer wbT fuel st = .noFuel ∨ flushBuffer wbT fuel st = .ok st () ∨
      ∃ e, flushBuffer wbT fuel st = .err st e := by
  cases fuel with
  | zero => exact Or.inl rfl
  | succ fuel =>
    rw [flushBuffer]
    by_cases hempty : (st.dataBuf.isEmpty && st.fdBuf.isEmpty) = true
    · rw [if_pos hempty]
      exact Or.inr (Or.inl rfl)
    · rw [if_neg hempty]
      rw [wb_vectored_two_slices]
      by_cases hde : st.dataBuf.isEmpty = true
      · rw [if_pos hde]
        refine Or.inr (Or.inr ⟨⟨.writeZero, "failed to write the buffered FDs"⟩, ?_⟩)
        have hfe : st.fdBuf.isEmpty = false := by
          cases hfv : st.fdBuf.isEmpty
          · rfl
          · exact absurd (by rw [hde, hfv]; rfl) hempty
        simp only [hde, if_true, hfe]
        rfl
      · rw [if_neg hde]
        refine Or.inr (Or.inr ⟨⟨.wouldBlock, "would block"⟩, ?_⟩)
        simp only [hde]
        rfl

/-- The after-flush part of `write_helper` leaves the fd queue unchanged on
every normal return if `write_inner` never consumes fds. -/
theorem writeTail_fdEq (st2 : BufWriteFD σ) (extendBytes : List Byte)
    (writeInner : σ → List Fd → σ × List Fd × Except IOErr Nat)
    (tw : Nat) (hwi : ∀ s f, (writeInner s f).2.1 = f) :
    (writeTail st2 extendBytes writeInner tw).onReturn
      (fun s => s.fdBuf = st2.fdBuf) := by
  rw [writeTail]
  by_cases hc : st2.capacity ≤ tw
  · rw [if_pos hc]
    by_cases hde : st2.dataBuf.isEmpty = true
    · rw [if_pos hde]
      rcases hw : writeInner st2.inner st2.fdBuf with ⟨s', f', r⟩
      have hf : f' = st2.fdBuf := by
        have := hwi st2.inner st2.fdBuf
        rw [hw] at this
        exact this
      simp only [hw]
      match r with
      | .ok n => exact hf
      | .error e => exact hf
    · rw [if_neg hde]
      trivial
  · rw [if_neg hc]
    exact rfl

/-- Against the `WouldBlockWriter`, every normal return of `write_helper`
leaves the fd queue exactly `st.fdBuf ++ fds`, if `write_inner` never
consumes fds. -/
theorem writeHelper_wb_fdEq (fuel : Nat) (st : BufWriteFD Unit) (fds : List Fd)
    (extendBytes : List Byte)
    (writeInner : Unit → List Fd → Unit × List Fd × Except IOErr Nat)
    (firstBuffer : List Byte) (tw : Nat)
    (hwi : ∀ s f, (writeInner s f).2.1 = f) :
    (writeHelper wbT fuel st fds extendBytes writeInner firstBuffer tw).onReturn
      (fun s => s.fdBuf = st.fdBuf ++ fds) := by
  rw [writeHelper]
  dsimp only
  by_cases hfree : st.capacity - st.dataBuf.length < tw
  · rw [if_pos hfree]
    rcases flushBuffer_wb fuel { st with fdBuf := st.fdBuf ++ fds } with hfb | hfb | ⟨e, hfb⟩
    · rw [hfb]
      trivial
    · rw [hfb]
      exact Outcome.onReturn_mono
        (writeTail_fdEq { st with fdBuf := st.fdBuf ++ fds } extendBytes writeInner tw hwi)
        (fun s hs => hs)
    · rw [hfb]
      dsimp only
      by_cases hek : e.kind = ErrKind.wouldBlock
      · rw [if_pos hek]
        by_cases hav : ({ st with fdBuf := st.fdBuf ++ fds } : BufWriteFD Unit).capacity -
            ({ st with fdBuf := st.fdBuf ++ fds } : BufWriteFD Unit).dataBuf.length = 0
        · rw [if_pos hav]
          exact rfl
        · rw [if_neg hav]
          exact rfl
      · rw [if_neg hek]
        exact rfl
  · rw [if_neg hfree]
    exact Outcome.onReturn_mono
      (writeTail_fdEq { st with fdBuf := st.fdBuf ++ fds } extendBytes writeInner tw hwi)
      (fun s hs => hs)

/-- The `WouldBlockWriter` conforms to the fd part of the `WriteFD`
contract. -/
theorem wbT_fdsConforming : FdsConforming wbT :=
  ⟨fun _ _ fds => List.suffix_refl fds,
    fun s bufs fds => by rw [wbT_vectored_keeps_fds]⟩

/-- C7: every call to `write`/`write_vectored` first moves all caller fds to
the back of the internal queue (the caller's vector is drained by
`Vec::append`); afterwards fds only ever leave from the front, so on every
reachable state the queue is a suffix of `old queue ++ submitted fds`
(conjuncts 1 and 2, for any contract-conforming transport). Against the
always-`WouldBlock` transport no fd is consumed, and every return — success
or error — leaves the queue exactly `old queue ++ submitted fds` (conjuncts
3 and 4). -/
theorem write_fds_enqueued_in_order :
    (∀ (σ : Type) (T : WriteFDImpl σ), FdsConforming T →
      ∀ (fuel : Nat) (st : BufWriteFD σ) (buf : List Byte) (fds : List Fd),
        (BufWriteFD.write T fuel st buf fds).onStates
          (fun s => s.fdBuf <:+ st.fdBuf ++ fds)) ∧
    (∀ (σ : Type) (T : WriteFDImpl σ), FdsConforming T →
      ∀ (fuel : Nat) (st : BufWriteFD σ) (bufs : List (List Byte)) (fds : List Fd),
        (BufWriteFD.writeVectored T fuel st bufs fds).onStates
          (fun s => s.fdBuf <:+ st.fdBuf ++ fds)) ∧
    (∀ (fuel : Nat) (st : BufWriteFD Unit) (buf : List Byte) (fds : List Fd),
      (BufWriteFD.write wbT fuel st buf fds).onReturn
        (fun s => s.fdBuf = st.fdBuf ++ fds)) ∧
    (∀ (fuel : Nat) (st : BufWriteFD Unit) (bufs : List (List Byte)) (fds : List Fd),
      (BufWriteFD.writeVectored wbT fuel st bufs fds).onReturn
        (fun s => s.fdBuf = st.fdBuf ++ fds)) := by
  refine ⟨?_, ?_, ?_, ?_⟩
  · intro σ T hT fuel st buf fds
    exact writeHelper_fdSuffix T fuel st fds buf _ buf buf.length hT.2
      (fun s f => hT.1 s buf f)
  · intro σ T hT fuel st bufs fds
    exact writeHelper_fdSuffix T fuel st fds bufs.flatten _ (firstNonempty bufs)
      (vecLen bufs) hT.2 (fun s f => hT.2 s bufs f)
  · intro fuel st buf fds
    exact writeHelper_wb_fdEq fuel st fds buf _ buf buf.length (fun s f => rfl)
  · intro fuel st bufs fds
    exact writeHelper_wb_fdEq fuel st fds bufs.flatten _ (firstNonempty bufs)
      (vecLen bufs) (fun s f => wbT_vectored_keeps_fds s bufs f)

/-- Witness for C7 at concrete inputs. -/
theorem write_fds_enqueued_in_order_witness :
    (BufWriteFD.write wbT 1 ⟨⟨⟩, 2, [], [4]⟩ [1] [5]).onStates
      (fun s => s.fdBuf <:+ [4] ++ [5]) ∧
    (BufWriteFD.writeVectored wbT 1 ⟨⟨⟩, 2, [], [4]⟩ [[1]] [5]).onStates
      (fun s => s.fdBuf <:+ [4] ++ [5]) ∧
    (BufWriteFD.write wbT 1 ⟨⟨⟩, 2, [0, 0], []⟩ [1, 2, 3] [5]).onReturn
      (fun s => s.fdBuf = [] ++ [5]) ∧
    (BufWriteFD.writeVectored wbT 1 ⟨⟨⟩, 2, [0, 0], []⟩ [[1], [2, 3]] [5]).onReturn
      (fun s => s.fdBuf = [] ++ [5]) :=
  ⟨write_fds_enqueued_in_order.1 Unit wbT wbT_fdsConforming 1 ⟨⟨⟩, 2, [], [4]⟩ [1] [5],
    write_fds_enqueued_in_order.2.1 Unit wbT wbT_fdsConforming 1 ⟨⟨⟩, 2, [], [4]⟩ [[1]] [5],
    write_fds_enqueued_in_order.2.2.1 1 ⟨⟨⟩, 2, [0, 0], []⟩ [1, 2, 3] [5],
    write_fds_enqueued_in_order.2.2.2 1 ⟨⟨⟩, 2, [0, 0], []⟩ [[1], [2, 3]] [5]⟩

/-- The scripted reader's poll always reports readable. -/
theorem scriptReader_poll (s : List (List Byte × List Fd)) :
    scriptReader.poll s true false = (s, .ok (true, false)) := rfl

/-- The scripted reader delivers the next chunk, clipped to the window. -/
theorem scriptReader_read_cons (c : List Byte × List Fd)
    (rest : List (List Byte × List Fd)) (n : Nat) :
    scriptReader.read (c :: rest) n = (rest, .ok (c.1.take n, c.2)) := rfl

/-- Core induction for C6: running the `read_exact` loop against the scripted
reader, where the chunks (each non-empty) deliver fewer bytes than the window
needs, consumes all chunks and then fails on the zero-byte read with
`UnexpectedEof`; the accumulated destination prefix is exactly the chunks'
bytes appended to what was already accumulated. -/
theorem readExactAux_script_eof (chunks : List (List Byte × List Fd)) :
    ∀ (n : Nat) (acc : List Byte) (fds0 : List Fd),
      (chunks.map (fun c => c.1.length)).sum < n →
      (∀ c ∈ chunks, c.1 ≠ []) →
      readExactAux scriptReader (chunks.length + 1) chunks n acc fds0 =
        some ([], acc ++ (chunks.map Prod.fst).flatten,
          fds0 ++ (chunks.map Prod.snd).flatten,
          .error ⟨.unexpectedEof, "failed to fill the whole buffer"⟩) := by
  induction chunks with
  | nil =>
    intro n acc fds0 hlt hne
    rw [readExactAux]
    rw [if_neg (by simp at hlt; omega)]
    simp [scriptReader]
  | cons c rest ih =>
    intro n acc fds0 hlt hne
    have hcne : c.1 ≠ [] := hne c (List.mem_cons_self c rest)
    obtain ⟨b, bs, hbs⟩ := List.exists_cons_of_ne_nil hcne
    have hc1 : c.1.take n = c.1 := by
      refine List.take_of_length_le ?_
      simp only [List.map_cons, List.sum_cons] at hlt
      omega
    have hne' : ∀ d ∈ rest, d.1 ≠ [] := fun d hd => hne d (List.mem_cons_of_mem c hd)
    have hlt' : (rest.map (fun c => c.1.length)).sum < n - (b :: bs).length := by
      rw [← hbs]
      simp only [List.map_cons, List.sum_cons] at hlt
      omega
    rw [readExactAux]
    rw [if_neg (by simp only [List.map_cons, List.sum_cons] at hlt; omega)]
    rw [scriptReader_poll]
    dsimp only
    rw [scriptReader_read_cons]
    dsimp only
    rw [hc1, hbs]
    dsimp only
    have hlen : (c :: rest).length = rest.length + 1 := by simp
    rw [hlen]
    rw [ih (n - (b :: bs).length) (acc ++ b :: bs) (fds0 ++ c.2) hlt' hne']
    simp [hbs]

/-- C6: against any reader that, after delivering some non-empty chunks that
do not yet fill the destination, returns 0 bytes while the window is still
non-empty, `read_exact` fails with `UnexpectedEof` and the destination holds
exactly the prefix filled by the preceding reads (all chunk bytes, in order);
received fds are kept. -/
theorem readExact_zero_read_unexpectedEof :
    ∀ (chunks : List (List Byte × List Fd)) (n : Nat) (fds0 : List Fd),
      (chunks.map (fun c => c.1.length)).sum < n →
      (∀ c ∈ chunks, c.1 ≠ []) →
      readExact scriptReader (chunks.length + 1) chunks n fds0 =
        some ([], (chunks.map Prod.fst).flatten,
          fds0 ++ (chunks.map Prod.snd).flatten,
          .error ⟨.unexpectedEof, "failed to fill the whole buffer"⟩) := by
  intro chunks n fds0 hlt hne
  rw [readExact]
  rw [readExactAux_script_eof chunks n [] fds0 hlt hne]
  simp

/-- Witness for C6 at a concrete input: two chunks of one byte each, window
of length 4. -/
theorem readExact_zero_read_unexpectedEof_witness :
    readExact scriptReader 3 [([1], [5]), ([2], [])] 4 [9] =
      some ([], [1, 2], [9, 5],
        .error ⟨.unexpectedEof, "failed to fill the whole buffer"⟩) := by
  have h := readExact_zero_read_unexpectedEof [([1], [5]), ([2], [])] 4 [9]
    (by decide) (by decide)
  simpa using h

/-- `vecLen` is the length of the concatenation of the spans. -/
theorem vecLen_eq_flatten_length (bufs : List (List Byte)) :
    vecLen bufs = bufs.flatten.length := by
  simp [vecLen, List.length_flatten]

/-- The accepting transport's vectored write on the two slices offered by
`flush_buffer`: everything is logged and accepted. -/
theorem sink_vectored_two_slices (s : SinkState) (l : List Byte) (fds : List Fd) :
    sinkT.writeVectored s [l, []] fds =
      (⟨s.bytes ++ l, s.fds ++ fds⟩, [], .ok l.length) := by
  show sinkWrite s ([l, []]).flatten fds = _
  simp [sinkWrite]

/-- `flush_buffer` against the accepting transport with a non-empty byte
buffer: one vectored write moves all bytes and fds into the transport log and
the loop terminates successfully with both queues empty. -/
theorem flushBuffer_sink_data (ib : List Byte) (ifd : List Fd) (cap : Nat)
    (d : Byte) (ds : List Byte) (fdb : List Fd) :
    flushBuffer sinkT 2 ⟨⟨ib, ifd⟩, cap, d :: ds, fdb⟩ =
      .ok ⟨⟨ib ++ d :: ds, ifd ++ fdb⟩, cap, [], []⟩ () := by
  rw [flushBuffer]
  rw [if_neg (by simp)]
  rw [sink_vectored_two_slices]
  dsimp only [List.length_cons]
  rw [if_pos (by simp)]
  have hdrop : (d :: ds).drop (ds.length + 1) = [] := by
    rw [List.drop_succ_cons, List.drop_length]
  rw [hdrop]
  rfl

/-- `flush_buffer` against the accepting transport with an empty byte buffer
but pending fds: the transport consumes the fds but reports `Ok(0)`, and the
fd assertion fires; the transport has nevertheless received everything. -/
theorem flushBuffer_sink_fds (ib : List Byte) (ifd : List Fd) (cap : Nat)
    (g : Fd) (gs : List Fd) :
    flushBuffer sinkT 2 ⟨⟨ib, ifd⟩, cap, [], g :: gs⟩ =
      .panicked ⟨⟨ib ++ [], ifd ++ g :: gs⟩, cap, [], []⟩ fdAssertMsg := by
  rw [flushBuffer]
  rw [if_neg (by simp)]
  rw [sink_vectored_two_slices]
  rfl

/-- `BufWriteFD::flush` against the accepting transport always hands the full
buffered bytes and all queued fds to the transport, whatever the outcome
(the fds-only case panics at the fd assertion after the transport has
already received everything). -/
theorem flush_sink (st : BufWriteFD SinkState) :
    ∃ stf : BufWriteFD SinkState,
      (BufWriteFD.flush sinkT 2 st).stateOf? = some stf ∧
      stf.inner.bytes = st.inner.bytes ++ st.dataBuf ∧
      stf.inner.fds = st.inner.fds ++ st.fdBuf := by
  obtain ⟨⟨ib, ifd⟩, cap, data, fdb⟩ := st
  cases data with
  | nil =>
    cases fdb with
    | nil =>
      refine ⟨⟨⟨ib, ifd⟩, cap, [], []⟩, ?_, by simp, by simp⟩
      rfl
    | cons g gs =>
      refine ⟨⟨⟨ib ++ [], ifd ++ g :: gs⟩, cap, [], []⟩, ?_, by simp, by simp⟩
      rw [BufWriteFD.flush]
      rw [flushBuffer_sink_fds]
      rfl
  | cons d ds =>
    refine ⟨⟨⟨ib ++ d :: ds, ifd ++ fdb⟩, cap, [], []⟩, ?_, by simp, by simp⟩
    rw [BufWriteFD.flush]
    rw [flushBuffer_sink_data]
    rfl

/-- One `write_helper` call against the accepting transport, when the payload
fits in the free capacity: it succeeds with the full length, never triggers a
flush, and the bytes land either wholly in the buffer or (zero-copy path)
wholly in the transport log; fds land in the queue or the log. -/
theorem writeHelper_sink (st : BufWriteFD SinkState) (fds : List Fd)
    (extendBytes : List Byte)
    (writeInner : SinkState → List Fd → SinkState × List Fd × Except IOErr Nat)
    (firstBuffer : List Byte) (tw : Nat)
    (hlen : extendBytes.length = tw)
    (hwi : ∀ s f, writeInner s f = sinkWrite s extendBytes f)
    (hfit : st.dataBuf.length + tw ≤ st.capacity) :
    ∃ st' : BufWriteFD SinkState,
      writeHelper sinkT 2 st fds extendBytes writeInner firstBuffer tw = .ok st' tw ∧
      st'.inner.bytes ++ st'.dataBuf = st.inner.bytes ++ st.dataBuf ++ extendBytes ∧
      st'.inner.fds ++ st'.fdBuf = st.inner.fds ++ st.fdBuf ++ fds ∧
      st'.dataBuf.length ≤ st.dataBuf.length + tw ∧
      st'.capacity = st.capacity := by
  rw [writeHelper]
  dsimp only
  rw [if_neg (by omega)]
  rw [writeTail]
  dsimp only
  by_cases hcap : st.capacity ≤ tw
  · have hd : st.dataBuf = [] := by
      have : st.dataBuf.length = 0 := by omega
      exact List.length_eq_zero.mp this
    rw [if_pos hcap]
    rw [if_pos (by simp [hd])]
    rw [hwi]
    rw [sinkWrite]
    dsimp only
    rw [hlen]
    refine ⟨_, rfl, ?_, ?_, ?_, rfl⟩
    · simp [hd]
    · simp
    · simp [hd]
  · rw [if_neg hcap]
    refine ⟨_, rfl, ?_, ?_, ?_, rfl⟩
    · simp
    · simp
    · simp [hlen]

/-- One buffered-writer operation against the accepting transport, when the
payload fits in the free capacity. -/
theorem runOp_sink (op : WOp) (st : BufWriteFD SinkState)
    (hfit : st.dataBuf.length + op.bytes.length ≤ st.capacity) :
    ∃ st' : BufWriteFD SinkState,
      runOp sinkT 2 st op = .ok st' op.bytes.length ∧
      st'.inner.bytes ++ st'.dataBuf = st.inner.bytes ++ st.dataBuf ++ op.bytes ∧
      st'.inner.fds ++ st'.fdBuf = st.inner.fds ++ st.fdBuf ++ op.fdsOf ∧
      st'.dataBuf.length ≤ st.dataBuf.length + op.bytes.length ∧
      st'.capacity = st.capacity := by
  cases op with
  | write b f =>
    exact writeHelper_sink st f b _ b b.length rfl (fun s fl => rfl) hfit
  | writeV bs f =>
    have hv : vecLen bs = bs.flatten.length := vecLen_eq_flatten_length bs
    obtain ⟨st', h1, hb, hf, hl, hc⟩ :=
      writeHelper_sink st f bs.flatten (fun s fl => sinkT.writeVectored s bs fl)
        (firstNonempty bs) (vecLen bs) hv.symm
        (fun s fl => by
          show sinkWrite s bs.flatten fl = sinkWrite s bs.flatten fl
          rfl)
        (by rw [hv]; exact hfit)
    refine ⟨st', ?_, hb, hf, ?_, hc⟩
    · show writeHelper sinkT 2 st f bs.flatten _ (firstNonempty bs) (vecLen bs) =
        .ok st' bs.flatten.length
      rw [h1, hv]
    · show st'.dataBuf.length ≤ st.dataBuf.length + bs.flatten.length
      rw [← hv]
      exact hl

/-- Running a sequence of operations whose total length fits in the free
capacity against the accepting transport: every call succeeds, nothing is
lost or reordered, and the transport log plus the pending buffers equal the
submitted bytes and fds. -/
theorem runOps_sink (ops : List WOp) :
    ∀ st : BufWriteFD SinkState,
      st.dataBuf.length + opsLen ops ≤ st.capacity →
      ∃ st' : BufWriteFD SinkState,
        runOps sinkT 2 ops st = .ok st' () ∧
        st'.inner.bytes ++ st'.dataBuf =
          st.inner.bytes ++ st.dataBuf ++ (ops.map WOp.bytes).flatten ∧
        st'.inner.fds ++ st'.fdBuf =
          st.inner.fds ++ st.fdBuf ++ (ops.map WOp.fdsOf).flatten ∧
        st'.dataBuf.length ≤ st.dataBuf.length + opsLen ops ∧
        st'.capacity = st.capacity := by
  induction ops with
  | nil =>
    intro st h
    exact ⟨st, rfl, by simp, by simp, by omega, rfl⟩
  | cons op rest ih =>
    intro st h
    have hfit : st.dataBuf.length + op.bytes.length ≤ st.capacity := by
      simp only [opsLen, List.map_cons, List.sum_cons] at h
      omega
    obtain ⟨st1, h1, hb1, hf1, hl1, hc1⟩ := runOp_sink op st hfit
    have hfit2 : st1.dataBuf.length + opsLen rest ≤ st1.capacity := by
      simp only [opsLen, List.map_cons, List.sum_cons] at h
      rw [hc1]
      simp only [opsLen] at *
      omega
    obtain ⟨st2, h2, hb2, hf2, hl2, hc2⟩ := ih st1 hfit2
    refine ⟨st2, ?_, ?_, ?_, ?_, ?_⟩
    · rw [runOps, h1]
      exact h2
    · rw [hb2, hb1]
      simp [List.append_assoc]
    · rw [hf2, hf1]
      simp [List.append_assoc]
    · simp only [opsLen, List.map_cons, List.sum_cons] at *
      omega
    · rw [hc2, hc1]

/-- C1: for every sequence of `write`/`write_vectored` submissions totalling
at most the capacity `C`, run on a fresh writer over the accepting transport
and followed by one `flush`, the transport has received exactly the
concatenation of the submitted byte spans in submission order, and exactly
the submitted fds in submission order. -/
theorem seq_writes_then_flush_delivers_exactly :
    ∀ (C : Nat) (ops : List WOp),
      opsLen ops ≤ C →
      ∃ stf : BufWriteFD SinkState,
        (thenFlush sinkT 2
            (runOps sinkT 2 ops (BufWriteFD.withCapacity C ⟨[], []⟩))).stateOf? =
          some stf ∧
        stf.inner.bytes = (ops.map WOp.bytes).flatten ∧
        stf.inner.fds = (ops.map WOp.fdsOf).flatten := by
  intro C ops h
  obtain ⟨st', h1, hb, hf, hl, hc⟩ :=
    runOps_sink ops (BufWriteFD.withCapacity C ⟨[], []⟩) (by simpa [BufWriteFD.withCapacity] using h)
  obtain ⟨stf, h2, hb2, hf2⟩ := flush_sink st'
  refine ⟨stf, ?_, ?_, ?_⟩
  · rw [h1]
    exact h2
  · rw [hb2, hb]
    simp [BufWriteFD.withCapacity]
  · rw [hf2, hf]
    simp [BufWriteFD.withCapacity]

/-- Witness for C1 at a concrete input: a scalar write and a vectored write
totalling 4 bytes with capacity 8. -/
theorem seq_writes_then_flush_delivers_exactly_witness :
    ∃ stf : BufWriteFD SinkState,
      (thenFlush sinkT 2
          (runOps sinkT 2 [WOp.write [1, 2] [7], WOp.writeV [[3], [4]] [8]]
            (BufWriteFD.withCapacity 8 ⟨[], []⟩))).stateOf? =
        some stf ∧
      stf.inner.bytes =
        (([WOp.write [1, 2] [7], WOp.writeV [[3], [4]] [8]]).map WOp.bytes).flatten ∧
      stf.inner.fds =
        (([WOp.write [1, 2] [7], WOp.writeV [[3], [4]] [8]]).map WOp.fdsOf).flatten :=
  seq_writes_then_flush_delivers_exactly 8 [WOp.write [1, 2] [7], WOp.writeV [[3], [4]] [8]]
    (by decide)
